import Mathlib

/-!
Verification development for the image-compressor application.

The program under study is a React single-page application (`src/App.js` and
its richer variant with quality profiles).  All pipeline and state logic lives
in the `App` component:

* `simulateProgress` — a for-loop emitting progress values 0,2,…,100 with a
  40 ms pause after each emission;
* `compressImage` — calls the external `imageCompression` library with the
  options of the active quality profile, allocates an object URL for the
  result, and returns `{url, originalSize, compressedSize, name}`, or `null`
  when the library throws;
* `onDrop` — the batch submission entry point: filters to JPEG files, alerts
  when some files were skipped, prepends fresh pending items to the list, then
  processes the accepted files strictly one at a time with a 300 ms pause
  between consecutive items;
* `removeImage` — removes an item by id and revokes its object URL;
* `handleCompressionChange` — sets a new quality level and re-runs every item
  that still holds its original file through the same pipeline.

The embedding below models the component state (`useState` hooks) as an
explicit record `AppState`, each `setXxx` call as a state mutation, and each
`async` entry point as the list of mutations it performs, separated in the
real program by `await` suspension points.  The external compression library
is modelled by an oracle `File → Level → Option Nat` returning the compressed
byte size on success and `none` when it throws.  Object URLs
(`URL.createObjectURL` / `URL.revokeObjectURL`) are modelled as natural-number
handles drawn from a counter, with revocations recorded in a list.
-/

/-- Uploaded file as seen by the drop handler: name, byte size and MIME type. -/
structure File where
  name : String
  size : Nat
  type : String
deriving DecidableEq, Repr

/-- Quality tiers of the profile selector (`compressionOptions` keys). -/
inductive Level where
  | high
  | medium
  | low
deriving DecidableEq, Repr

/-- Compression profile attributes, from the `compressionOptions` table. -/
structure Profile where
  label : String
  maxSizeMB : Rat
  maxWidthOrHeight : Nat
  description : String
deriving DecidableEq, Repr

/-- The `compressionOptions` table of the source: high ↦ (2 MB, 2560 px),
medium ↦ (1 MB, 1920 px), low ↦ (0.5 MB, 1280 px). -/
def compressionOptions : Level → Profile
  | Level.high => ⟨"High Quality", 2, 2560, "Larger file size, better quality"⟩
  | Level.medium => ⟨"Balanced", 1, 1920, "Recommended for most uses"⟩
  | Level.low => ⟨"Small Size", 1 / 2, 1280, "Smallest file size, reduced quality"⟩

/-- One element of the `compressedImages` array.  Items are created by
`onDrop` as `{id, name, file, processing: true, progress: 0}`; the url and the
two sizes are only added later by spreading a successful compression result,
hence they are `Option`-valued.  Object-URL handles are naturals. -/
structure Item where
  id : Nat
  name : String
  file : Option File
  processing : Bool
  progress : Nat
  url : Option Nat
  originalSize : Option Nat
  compressedSize : Option Nat
deriving DecidableEq, Repr

/-- The component state: the four `useState` hooks (`compressedImages`,
`loading`, `uploadProgress`, `compressionLevel`) plus bookkeeping for object
URLs: `nextHandle` is the allocator for `URL.createObjectURL` and `revoked`
records every `URL.revokeObjectURL` call in order. -/
structure AppState where
  compressedImages : List Item
  loading : Bool
  uploadProgress : List (Nat × Nat)
  compressionLevel : Level
  nextHandle : Nat
  revoked : List Nat
deriving DecidableEq, Repr

/-- Functional update of the `uploadProgress` object: the JS spread
`{...prev, [id]: v}` replaces the binding of `id` and keeps the others.
Lookups read the first matching pair. -/
def updateAssoc (m : List (Nat × Nat)) (id v : Nat) : List (Nat × Nat) :=
  (id, v) :: m.filter (fun q => q.1 != id)

/-- Lookup in the `uploadProgress` object. -/
def lookupAssoc (m : List (Nat × Nat)) (id : Nat) : Option Nat :=
  (m.find? (fun q => q.1 == id)).map (fun q => q.2)

/-- MIME filter of `onDrop`: `file.type.startsWith('image/jpeg')`, rendered
at the character level (a string starts with a pattern iff the pattern's
character list is a prefix of its character list). -/
def fileIsJpeg (f : File) : Bool :=
  "image/jpeg".data.isPrefixOf f.type.data

/-- Iteration of the loop body of `simulateProgress`
(`for (let progress = 0; progress <= 100; progress += 2)`) from counter `p`,
with an explicit upper bound `n` on the number of remaining loop tests making
the recursion structural; `simFrom_unfold` below shows that with the bound
`101 - p` this satisfies exactly the loop's recurrence, so no iteration is
cut short. -/
def simFromAux : Nat → Nat → List Nat
  | 0, _ => []
  | n + 1, p => if p ≤ 100 then p :: simFromAux n (p + 2) else []

/-- Progress values produced by the `simulateProgress` loop from counter `p`. -/
def simFrom (p : Nat) : List Nat :=
  simFromAux (101 - p) p

lemma simFromAux_irrel : ∀ n m p, 101 - p ≤ n → 101 - p ≤ m →
    simFromAux n p = simFromAux m p := by
  intro n
  induction n with
  | zero =>
      intro m p h1 _
      have hp : ¬ p ≤ 100 := by omega
      cases m with
      | zero => rfl
      | succ m => simp [simFromAux, hp]
  | succ n ih =>
      intro m p h1 h2
      by_cases hp : p ≤ 100
      · cases m with
        | zero => omega
        | succ m =>
            simp only [simFromAux, if_pos hp]
            rw [ih m (p + 2) (by omega) (by omega)]
      · cases m with
        | zero => simp [simFromAux, hp]
        | succ m => simp [simFromAux, hp]

/-- The structural definition satisfies the loop's recurrence: emit the
counter and continue while `p ≤ 100`, stop otherwise. -/
lemma simFrom_unfold (p : Nat) :
    simFrom p = if p ≤ 100 then p :: simFrom (p + 2) else [] := by
  unfold simFrom
  by_cases hp : p ≤ 100
  · rw [if_pos hp]
    have h101 : 101 - p = (100 - p) + 1 := by omega
    rw [h101]
    simp only [simFromAux, if_pos hp]
    rw [simFromAux_irrel (100 - p) (101 - (p + 2)) (p + 2) (by omega)
      (by omega)]
  · rw [if_neg hp]
    have h101 : 101 - p = 0 := by omega
    rw [h101]
    rfl

/-- The full value sequence of one `simulateProgress` run. -/
def simulateProgressValues : List Nat :=
  simFrom 0

/-- A state mutation: one `setXxx` call (or one synchronous group thereof). -/
abbrev Mut := AppState → AppState

/-- Run a list of mutations in order. -/
def applyMuts : List Mut → AppState → AppState
  | [], s => s
  | m :: ms, s => applyMuts ms (m s)

/-- All states observable while a list of mutations runs: the start state and
the state after each mutation.  Each mutation is atomic from the point of view
of a reader (a single `setState` call). -/
def statesOf : List Mut → AppState → List AppState
  | [], s => [s]
  | m :: ms, s => s :: statesOf ms (m s)

/-- Mutation `setLoading b`. -/
def setLoadingMut (b : Bool) : Mut :=
  fun s => { s with loading := b }

/-- Mutation `setCompressionLevel l`. -/
def setLevelMut (l : Level) : Mut :=
  fun s => { s with compressionLevel := l }

/-- Mutation `setUploadProgress(prev => ({...prev, [id]: v}))`. -/
def setUPMut (id v : Nat) : Mut :=
  fun s => { s with uploadProgress := updateAssoc s.uploadProgress id v }

/-- The fresh pending items built by `onDrop`
(`validFiles.map(file => ({id: uuidv4(), name, file, processing: true,
progress: 0}))`).  The uuids are supplied from outside as the list `ids`,
paired positionally with the accepted files. -/
def newItems (files : List File) (ids : List Nat) : List Item :=
  ((files.filter fileIsJpeg).zip ids).map
    (fun p => ⟨p.2, p.1.name, some p.1, true, 0, none, none, none⟩)

/-- Mutation `setCompressedImages(prev => [...newFiles, ...prev])`. -/
def enqueueMut (files : List File) (ids : List Nat) : Mut :=
  fun s => { s with compressedImages := newItems files ids ++ s.compressedImages }

/-- Mutation of `onDrop` lines `setCompressedImages(prev => prev.map(img =>
img.id === id ? {...img, progress: 100} : img))`. -/
def mark100Mut (id : Nat) : Mut :=
  fun s =>
    { s with
      compressedImages := s.compressedImages.map
        (fun img => if img.id = id then { img with progress := 100 } else img) }

/-- Completion of a successful compression of file `f` with compressed size
`c` for item `id`: `URL.createObjectURL` allocates the next handle and the
store update spreads `{url, originalSize, compressedSize, name}` over the item
together with `processing: false, progress: 100`. -/
def completeMut (id : Nat) (f : File) (c : Nat) : Mut :=
  fun s =>
    { s with
      nextHandle := s.nextHandle + 1
      compressedImages := s.compressedImages.map
        (fun img =>
          if img.id = id then
            { img with
              name := f.name
              url := some s.nextHandle
              originalSize := some f.size
              compressedSize := some c
              processing := false
              progress := 100 }
          else img) }

/-- Mutation of `handleCompressionChange` lines `setCompressedImages(prev =>
prev.map(img => img.id === id ? {...img, processing: true, progress: 0} :
img))`. -/
def resetMut (id : Nat) : Mut :=
  fun s =>
    { s with
      compressedImages := s.compressedImages.map
        (fun img =>
          if img.id = id then { img with processing := true, progress := 0 }
          else img) }

/-- Mutation `URL.revokeObjectURL(u)`: record the revocation. -/
def revokeMut (u : Nat) : Mut :=
  fun s => { s with revoked := s.revoked ++ [u] }

/-- Mutations performed for one accepted file inside the `onDrop` loop:
`await simulateProgress(id)` (one `setUploadProgress` per emitted value), the
`progress: 100` store update, then `await compressImage(file)` followed, when
the library succeeds, by the completion update.  A failed compression performs
no store update at all (the `catch` branch only logs).  The compression
options come from `compressionOptions[compressionLevel]` captured by the
`useCallback(..., [])` closure of `onDrop`, so they are permanently those of
the initial `'medium'` level. -/
def dropItemMuts (oracle : File → Level → Option Nat) (p : File × Nat) : List Mut :=
  (simulateProgressValues.map (setUPMut p.2)) ++ [mark100Mut p.2] ++
    (match oracle p.1 Level.medium with
     | some c => [completeMut p.2 p.1 c]
     | none => [])

/-- All mutations of one `onDrop(acceptedFiles)` call.  An empty
`acceptedFiles` returns before any state change.  Otherwise: `setLoading(true)`,
prepend the fresh pending items, process each accepted file in order (the
300 ms pacing pause between items changes no state), `setLoading(false)`. -/
def onDropMut (oracle : File → Level → Option Nat) (files : List File)
    (ids : List Nat) : List Mut :=
  if files = [] then []
  else
    setLoadingMut true :: enqueueMut files ids ::
      (((files.filter fileIsJpeg).zip ids).flatMap (dropItemMuts oracle)) ++
        [setLoadingMut false]

/-- Final state of one `onDrop` call. -/
def onDrop (oracle : File → Level → Option Nat) (files : List File)
    (ids : List Nat) (s : AppState) : AppState :=
  applyMuts (onDropMut oracle files ids) s

/-- All observable states during one `onDrop` call. -/
def onDropStates (oracle : File → Level → Option Nat) (files : List File)
    (ids : List Nat) (s : AppState) : List AppState :=
  statesOf (onDropMut oracle files ids) s

/-- The alert raised by `onDrop` when some dropped files were filtered out:
a fixed message, raised iff `validFiles.length !== acceptedFiles.length`
(and only after the empty-input early return). -/
def onDropAlert (files : List File) : Option String :=
  if files = [] then none
  else if (files.filter fileIsJpeg).length ≠ files.length then
    some "Some files were skipped. Please upload only JPEG images."
  else none

/-- Number of dropped files rejected by the JPEG type filter. -/
def rejectedCount (files : List File) : Nat :=
  files.length - (files.filter fileIsJpeg).length

/-- The `removeImage(imageId)` handler: filter the item out of the list and
revoke its object URL when it has one. -/
def removeImage (imageId : Nat) (s : AppState) : AppState :=
  let newImages := s.compressedImages.filter (fun img => img.id != imageId)
  let imageToRemove := s.compressedImages.find? (fun img => img.id == imageId)
  { s with
    compressedImages := newImages
    revoked :=
      match imageToRemove with
      | some img =>
          match img.url with
          | some u => s.revoked ++ [u]
          | none => s.revoked
      | none => s.revoked }

/-- Mutations performed for one snapshot item inside the
`handleCompressionChange` loop: items without a retained source file are
skipped (`if (!image.file) continue`); otherwise `setUploadProgress` to 0,
the `processing: true, progress: 0` store update, `await simulateProgress`,
`await compressImage(image.file)` and, on success, revocation of the
snapshot's old url (when present) followed by the completion update.
`compressImage` here is the closure of the render that was clicked, so it
reads the `compressionLevel` value `captured` at invocation time — not the
level just passed to `setCompressionLevel`. -/
def changeItemMuts (oracle : File → Level → Option Nat) (captured : Level)
    (it : Item) : List Mut :=
  match it.file with
  | none => []
  | some f =>
      setUPMut it.id 0 :: resetMut it.id ::
        (simulateProgressValues.map (setUPMut it.id)) ++
          (match oracle f captured with
           | some c =>
               (match it.url with
                | some u => [revokeMut u]
                | none => []) ++ [completeMut it.id f c]
           | none => [])

/-- All mutations of one `handleCompressionChange(newLevel)` call invoked on
state `s0`: `setCompressionLevel(newLevel)`, `setLoading(true)`, then the
re-compression loop over the snapshot `[...compressedImages]` taken from the
invoking render's state, then `setLoading(false)`.  The compression calls use
`s0.compressionLevel`, the level captured by the closures of the invoking
render (the `await`s never rebind it), even though the state's level has
already been set to `newLevel`. -/
def changeMut (oracle : File → Level → Option Nat) (newLevel : Level)
    (s0 : AppState) : List Mut :=
  setLevelMut newLevel :: setLoadingMut true ::
    (s0.compressedImages.flatMap (changeItemMuts oracle s0.compressionLevel)) ++
      [setLoadingMut false]

/-- Final state of one `handleCompressionChange` call. -/
def handleCompressionChange (oracle : File → Level → Option Nat)
    (newLevel : Level) (s : AppState) : AppState :=
  applyMuts (changeMut oracle newLevel s) s

/-- All observable states during one `handleCompressionChange` call. -/
def changeStates (oracle : File → Level → Option Nat) (newLevel : Level)
    (s : AppState) : List AppState :=
  statesOf (changeMut oracle newLevel s) s

/-- Initial component state: all `useState` initial values. -/
def initialState : AppState :=
  ⟨[], false, [], Level.medium, 0, []⟩

/-- Derived `done` status of an item, exactly as the view computes it:
`!image.processing && image.progress === 100`. -/
def doneStatus (it : Item) : Bool :=
  !it.processing && (it.progress == 100)

/-! ## Progress simulator: values and trace -/

/-- Events of one `simulateProgress` run: a value written to `uploadProgress`
and the `setTimeout` pause that follows it. -/
inductive SimEv where
  | emit (id v : Nat)
  | sleep (ms : Nat)
deriving DecidableEq, Repr

/-- Event sequence of the `simulateProgress` loop body from loop counter `p`:
each iteration writes the value, then awaits a 40 ms timeout. -/
def simEventsFrom (id p : Nat) : List SimEv :=
  if h : p ≤ 100 then SimEv.emit id p :: SimEv.sleep 40 :: simEventsFrom id (p + 2)
  else []
termination_by 101 - p
decreasing_by omega

/-- Full event trace of `simulateProgress(id)`. -/
def simulateProgressTrace (id : Nat) : List SimEv :=
  simEventsFrom id 0

lemma simEventsFrom_eq_flatMap (id p : Nat) :
    simEventsFrom id p =
      (simFrom p).flatMap (fun v => [SimEv.emit id v, SimEv.sleep 40]) := by
  rw [simEventsFrom.eq_def, simFrom_unfold]
  by_cases h : p ≤ 100
  · simp only [dif_pos h, if_pos h, List.flatMap_cons, List.cons_append,
      List.nil_append]
    rw [simEventsFrom_eq_flatMap id (p + 2)]
  · simp [dif_neg h, if_neg h]
termination_by 101 - p
decreasing_by omega

lemma simulateProgressValues_eq :
    simulateProgressValues =
      [0, 2, 4, 6, 8, 10, 12, 14, 16, 18, 20, 22, 24, 26, 28, 30, 32, 34, 36,
       38, 40, 42, 44, 46, 48, 50, 52, 54, 56, 58, 60, 62, 64, 66, 68, 70, 72,
       74, 76, 78, 80, 82, 84, 86, 88, 90, 92, 94, 96, 98, 100] := by
  decide

lemma simulateProgressValues_length : simulateProgressValues.length = 51 := by
  rw [simulateProgressValues_eq]
  rfl

/-- C6: for every processing run of an item, the progress simulator produces
the values from 0 to 100 inclusive in steps of 2 (i.e. `2*k` for `k < 51`),
strictly increasing within the run, each value followed by a fixed 40 ms
delay before the next is produced. -/
theorem simulateProgress_values_step2 :
    simulateProgressValues = (List.range 51).map (fun k => 2 * k) ∧
    List.Chain' (fun a b => a < b) simulateProgressValues ∧
    simulateProgressValues.head? = some 0 ∧
    simulateProgressValues.getLast? = some 100 ∧
    (∀ v ∈ simulateProgressValues, v ≤ 100 ∧ 2 ∣ v) ∧
    (∀ id, simulateProgressTrace id =
      simulateProgressValues.flatMap (fun v => [SimEv.emit id v, SimEv.sleep 40])) := by
  refine ⟨?_, ?_, ?_, ?_, ?_, ?_⟩
  · rw [simulateProgressValues_eq]; rfl
  · rw [simulateProgressValues_eq]
    simp [List.chain'_cons]
  · rw [simulateProgressValues_eq]; rfl
  · rw [simulateProgressValues_eq]; rfl
  · rw [simulateProgressValues_eq]; decide
  · intro id
    exact simEventsFrom_eq_flatMap id 0

/-! ## Batch processor: event trace of the onDrop loop -/

/-- Processor-level events of the `onDrop` loop: one simulated progress tick,
the `progress: 100` store update, the compression call, the settling of an
item (with the success flag of the compression), and an inter-item pacing
delay. -/
inductive BEv where
  | tick (id v : Nat)
  | mark (id : Nat)
  | compressCall (id : Nat)
  | settle (id : Nat) (ok : Bool)
  | pace (ms : Nat)
deriving DecidableEq, Repr

/-- Events for one accepted file inside the `onDrop` loop, in program order:
`await simulateProgress(id)`, the `progress: 100` update, `await
compressImage(file)`, then the item is settled (completed on success,
abandoned by the processor on failure). -/
def onDropItemTrace (oracle : File → Level → Option Nat) (p : File × Nat) :
    List BEv :=
  (simulateProgressValues.map (fun v => BEv.tick p.2 v)) ++
    [BEv.mark p.2, BEv.compressCall p.2,
     BEv.settle p.2 (oracle p.1 Level.medium).isSome]

/-- Full event trace of the `onDrop` loop over the accepted (file, id) pairs:
the item blocks in submission order, separated by the fixed 300 ms pacing
delay (`if (i < validFiles.length - 1) await 300 ms`). -/
def onDropTrace (oracle : File → Level → Option Nat) :
    List (File × Nat) → List BEv
  | [] => []
  | [p] => onDropItemTrace oracle p
  | p :: q :: rest =>
      onDropItemTrace oracle p ++ BEv.pace 300 :: onDropTrace oracle (q :: rest)

/-- Item an event belongs to (`none` for the pacing delay). -/
def eventItem : BEv → Option Nat
  | BEv.tick i _ => some i
  | BEv.mark i => some i
  | BEv.compressCall i => some i
  | BEv.settle i _ => some i
  | BEv.pace _ => none

/-- Item settled by an event, if any. -/
def settledItem : BEv → Option Nat
  | BEv.settle i _ => some i
  | _ => none

lemma onDropItemTrace_eventItem (oracle : File → Level → Option Nat)
    (p : File × Nat) :
    (onDropItemTrace oracle p).filterMap eventItem = List.replicate 54 p.2 := by
  have h1 : (simulateProgressValues.map (fun v => BEv.tick p.2 v)).filterMap
      eventItem = List.replicate 51 p.2 := by
    rw [simulateProgressValues_eq]
    rfl
  simp only [onDropItemTrace, List.filterMap_append, h1]
  rfl

lemma onDropItemTrace_settledItem (oracle : File → Level → Option Nat)
    (p : File × Nat) :
    (onDropItemTrace oracle p).filterMap settledItem = [p.2] := by
  have h1 : (simulateProgressValues.map (fun v => BEv.tick p.2 v)).filterMap
      settledItem = [] := by
    rw [simulateProgressValues_eq]
    rfl
  simp only [onDropItemTrace, List.filterMap_append, h1]
  rfl

lemma onDropTrace_intercalate (oracle : File → Level → Option Nat)
    (pairs : List (File × Nat)) :
    onDropTrace oracle pairs =
      List.intercalate [BEv.pace 300] (pairs.map (onDropItemTrace oracle)) := by
  induction pairs with
  | nil => rfl
  | cons p rest ih =>
      cases rest with
      | nil => simp [onDropTrace, List.intercalate]
      | cons q rs =>
          simp only [onDropTrace, List.map_cons, List.intercalate,
            List.intersperse_cons_cons, List.flatten_cons] at ih ⊢
          rw [ih]
          simp

lemma onDropTrace_eventItem (oracle : File → Level → Option Nat)
    (pairs : List (File × Nat)) :
    (onDropTrace oracle pairs).filterMap eventItem =
      pairs.flatMap (fun p => List.replicate 54 p.2) := by
  induction pairs with
  | nil => rfl
  | cons p rest ih =>
      cases rest with
      | nil => simp [onDropTrace, onDropItemTrace_eventItem]
      | cons q rs =>
          simp only [onDropTrace, List.filterMap_append, List.filterMap_cons,
            onDropItemTrace_eventItem, List.flatMap_cons, eventItem] at ih ⊢
          rw [ih]

lemma onDropTrace_settledItem (oracle : File → Level → Option Nat)
    (pairs : List (File × Nat)) :
    (onDropTrace oracle pairs).filterMap settledItem = pairs.map Prod.snd := by
  induction pairs with
  | nil => rfl
  | cons p rest ih =>
      cases rest with
      | nil => simp [onDropTrace, onDropItemTrace_settledItem]
      | cons q rs =>
          simp only [onDropTrace, List.filterMap_append, List.filterMap_cons,
            onDropItemTrace_settledItem, List.map_cons, settledItem] at ih ⊢
          rw [ih]
          rfl

/-- C1: within one `onDrop` call the processing is strictly sequential.  The
loop's event trace is exactly the per-item blocks in submission order
separated by the fixed 300 ms pacing delay; consequently all events of item
`i` (its simulated-progress ticks, its compression call and its settling)
precede every event of item `i+1` — at most one item is ever in the
simulating/compressing phase — and items settle exactly in submission
order. -/
theorem onDrop_sequential_one_at_a_time (oracle : File → Level → Option Nat)
    (pairs : List (File × Nat)) :
    onDropTrace oracle pairs =
      List.intercalate [BEv.pace 300] (pairs.map (onDropItemTrace oracle)) ∧
    (onDropTrace oracle pairs).filterMap eventItem =
      pairs.flatMap (fun p => List.replicate 54 p.2) ∧
    (onDropTrace oracle pairs).filterMap settledItem = pairs.map Prod.snd :=
  ⟨onDropTrace_intercalate oracle pairs, onDropTrace_eventItem oracle pairs,
   onDropTrace_settledItem oracle pairs⟩

/-! ## State-level characterization of the onDrop loop -/

/-- Shape of a fresh pending item created by `onDrop` for the accepted
(file, id) pair `p`. -/
def pristineOf (p : File × Nat) : Item :=
  ⟨p.2, p.1.name, some p.1, true, 0, none, none, none⟩

/-- Net per-item effect of one pass of the `onDrop` loop body for pair `p`,
where `h` is the object-URL handle available when the completion update runs:
on success the item receives the compression result, on failure only the
`progress: 100` update applies, and items with other ids are untouched. -/
def stepFun (oracle : File → Level → Option Nat) (p : File × Nat) (h : Nat)
    (it : Item) : Item :=
  if it.id = p.2 then
    match oracle p.1 Level.medium with
    | some c =>
        { it with
          name := p.1.name
          url := some h
          originalSize := some p.1.size
          compressedSize := some c
          processing := false
          progress := 100 }
    | none => { it with progress := 100 }
  else it

/-- Observable shape of an item once the `onDrop` loop has settled the
accepted pair `p`: identity, name and retained source are kept, progress is
100; on success the item is completed with the compression result, on failure
it still carries `processing = true` and no artifact. -/
def settledShape (oracle : File → Level → Option Nat) (p : File × Nat)
    (it : Item) : Prop :=
  it.id = p.2 ∧ it.name = p.1.name ∧ it.file = some p.1 ∧ it.progress = 100 ∧
    match oracle p.1 Level.medium with
    | some c =>
        it.processing = false ∧ it.url.isSome = true ∧
          it.originalSize = some p.1.size ∧ it.compressedSize = some c
    | none =>
        it.processing = true ∧ it.url = none ∧
          it.originalSize = none ∧ it.compressedSize = none

/-- Number of accepted pairs whose compression call succeeds. -/
def succCount (oracle : File → Level → Option Nat)
    (pairs : List (File × Nat)) : Nat :=
  pairs.countP (fun p => (oracle p.1 Level.medium).isSome)

lemma applyMuts_append (ms1 ms2 : List Mut) (s : AppState) :
    applyMuts (ms1 ++ ms2) s = applyMuts ms2 (applyMuts ms1 s) := by
  induction ms1 generalizing s with
  | nil => rfl
  | cons m ms ih => simp [applyMuts, ih]

lemma applyMuts_setUP_images (id : Nat) (vs : List Nat) (s : AppState) :
    (applyMuts (vs.map (setUPMut id)) s).compressedImages =
      s.compressedImages := by
  induction vs generalizing s with
  | nil => rfl
  | cons v vs ih => simp [applyMuts, List.map_cons, ih, setUPMut]

lemma applyMuts_setUP_loading (id : Nat) (vs : List Nat) (s : AppState) :
    (applyMuts (vs.map (setUPMut id)) s).loading = s.loading := by
  induction vs generalizing s with
  | nil => rfl
  | cons v vs ih => simp [applyMuts, List.map_cons, ih, setUPMut]

lemma applyMuts_setUP_level (id : Nat) (vs : List Nat) (s : AppState) :
    (applyMuts (vs.map (setUPMut id)) s).compressionLevel =
      s.compressionLevel := by
  induction vs generalizing s with
  | nil => rfl
  | cons v vs ih => simp [applyMuts, List.map_cons, ih, setUPMut]

lemma applyMuts_setUP_nextHandle (id : Nat) (vs : List Nat) (s : AppState) :
    (applyMuts (vs.map (setUPMut id)) s).nextHandle = s.nextHandle := by
  induction vs generalizing s with
  | nil => rfl
  | cons v vs ih => simp [applyMuts, List.map_cons, ih, setUPMut]

lemma applyMuts_setUP_revoked (id : Nat) (vs : List Nat) (s : AppState) :
    (applyMuts (vs.map (setUPMut id)) s).revoked = s.revoked := by
  induction vs generalizing s with
  | nil => rfl
  | cons v vs ih => simp [applyMuts, List.map_cons, ih, setUPMut]

lemma applyMuts_singleton (m : Mut) (s : AppState) :
    applyMuts [m] s = m s :=
  rfl

lemma dropItemMuts_some (oracle : File → Level → Option Nat) (p : File × Nat)
    (c : Nat) (horacle : oracle p.1 Level.medium = some c) :
    dropItemMuts oracle p =
      (simulateProgressValues.map (setUPMut p.2)) ++ [mark100Mut p.2] ++
        [completeMut p.2 p.1 c] := by
  rw [dropItemMuts, horacle]

lemma dropItemMuts_none (oracle : File → Level → Option Nat) (p : File × Nat)
    (horacle : oracle p.1 Level.medium = none) :
    dropItemMuts oracle p =
      (simulateProgressValues.map (setUPMut p.2)) ++ [mark100Mut p.2] := by
  rw [dropItemMuts, horacle]
  simp

lemma dropItem_run_images (oracle : File → Level → Option Nat)
    (p : File × Nat) (s : AppState) :
    (applyMuts (dropItemMuts oracle p) s).compressedImages =
      s.compressedImages.map (stepFun oracle p s.nextHandle) := by
  cases horacle : oracle p.1 Level.medium with
  | some c =>
      rw [dropItemMuts_some oracle p c horacle, applyMuts_append,
        applyMuts_append, applyMuts_singleton, applyMuts_singleton]
      set sA := applyMuts (simulateProgressValues.map (setUPMut p.2)) s
        with hsA
      have hAimg : sA.compressedImages = s.compressedImages :=
        applyMuts_setUP_images p.2 simulateProgressValues s
      have hAh : sA.nextHandle = s.nextHandle :=
        applyMuts_setUP_nextHandle p.2 simulateProgressValues s
      simp only [completeMut, mark100Mut, hAimg, hAh, List.map_map]
      apply List.map_congr_left
      intro it _
      simp only [Function.comp_apply, stepFun, horacle]
      by_cases hid : it.id = p.2
      · simp [hid]
      · simp [hid]
  | none =>
      rw [dropItemMuts_none oracle p horacle, applyMuts_append,
        applyMuts_singleton]
      set sA := applyMuts (simulateProgressValues.map (setUPMut p.2)) s
        with hsA
      have hAimg : sA.compressedImages = s.compressedImages :=
        applyMuts_setUP_images p.2 simulateProgressValues s
      simp only [mark100Mut, hAimg]
      apply List.map_congr_left
      intro it _
      simp only [stepFun, horacle]

lemma dropItem_run_loading (oracle : File → Level → Option Nat)
    (p : File × Nat) (s : AppState) :
    (applyMuts (dropItemMuts oracle p) s).loading = s.loading := by
  cases horacle : oracle p.1 Level.medium with
  | some c =>
      rw [dropItemMuts_some oracle p c horacle, applyMuts_append,
        applyMuts_append, applyMuts_singleton, applyMuts_singleton]
      simp only [completeMut, mark100Mut]
      exact applyMuts_setUP_loading p.2 simulateProgressValues s
  | none =>
      rw [dropItemMuts_none oracle p horacle, applyMuts_append,
        applyMuts_singleton]
      simp only [mark100Mut]
      exact applyMuts_setUP_loading p.2 simulateProgressValues s

lemma dropItem_run_level (oracle : File → Level → Option Nat)
    (p : File × Nat) (s : AppState) :
    (applyMuts (dropItemMuts oracle p) s).compressionLevel =
      s.compressionLevel := by
  cases horacle : oracle p.1 Level.medium with
  | some c =>
      rw [dropItemMuts_some oracle p c horacle, applyMuts_append,
        applyMuts_append, applyMuts_singleton, applyMuts_singleton]
      simp only [completeMut, mark100Mut]
      exact applyMuts_setUP_level p.2 simulateProgressValues s
  | none =>
      rw [dropItemMuts_none oracle p horacle, applyMuts_append,
        applyMuts_singleton]
      simp only [mark100Mut]
      exact applyMuts_setUP_level p.2 simulateProgressValues s

lemma dropItem_run_revoked (oracle : File → Level → Option Nat)
    (p : File × Nat) (s : AppState) :
    (applyMuts (dropItemMuts oracle p) s).revoked = s.revoked := by
  cases horacle : oracle p.1 Level.medium with
  | some c =>
      rw [dropItemMuts_some oracle p c horacle, applyMuts_append,
        applyMuts_append, applyMuts_singleton, applyMuts_singleton]
      simp only [completeMut, mark100Mut]
      exact applyMuts_setUP_revoked p.2 simulateProgressValues s
  | none =>
      rw [dropItemMuts_none oracle p horacle, applyMuts_append,
        applyMuts_singleton]
      simp only [mark100Mut]
      exact applyMuts_setUP_revoked p.2 simulateProgressValues s

lemma settledShape_stepFun_pristine (oracle : File → Level → Option Nat)
    (p : File × Nat) (h : Nat) :
    settledShape oracle p (stepFun oracle p h (pristineOf p)) := by
  cases horacle : oracle p.1 Level.medium with
  | some c => simp [settledShape, stepFun, pristineOf, horacle]
  | none => simp [settledShape, stepFun, pristineOf, horacle]

lemma stepFun_of_ne (oracle : File → Level → Option Nat) (p : File × Nat)
    (h : Nat) (it : Item) (hne : it.id ≠ p.2) :
    stepFun oracle p h it = it := by
  simp [stepFun, hne]

lemma stepFun_preserves_id (oracle : File → Level → Option Nat)
    (p : File × Nat) (h : Nat) (it : Item) :
    (stepFun oracle p h it).id = it.id := by
  unfold stepFun
  split
  · cases oracle p.1 Level.medium <;> rfl
  · rfl

lemma loop_spec (oracle : File → Level → Option Nat) :
    ∀ (pairs : List (File × Nat)) (pre post : List Item) (s : AppState),
      s.compressedImages = pre ++ pairs.map pristineOf ++ post →
      (pairs.map Prod.snd).Nodup →
      (∀ it ∈ pre, ∀ p ∈ pairs, it.id ≠ p.2) →
      (∀ it ∈ post, ∀ p ∈ pairs, it.id ≠ p.2) →
      ∃ mid,
        (applyMuts (pairs.flatMap (dropItemMuts oracle)) s).compressedImages =
          pre ++ mid ++ post ∧
        List.Forall₂ (settledShape oracle) pairs mid ∧
        (applyMuts (pairs.flatMap (dropItemMuts oracle)) s).loading =
          s.loading ∧
        (applyMuts (pairs.flatMap (dropItemMuts oracle)) s).compressionLevel =
          s.compressionLevel ∧
        (applyMuts (pairs.flatMap (dropItemMuts oracle)) s).revoked =
          s.revoked := by
  intro pairs
  induction pairs with
  | nil =>
      intro pre post s hs hnd hpre hpost
      refine ⟨[], ?_, List.Forall₂.nil, rfl, rfl, rfl⟩
      simpa using hs
  | cons p ps ih =>
      intro pre post s hs hnd hpre hpost
      rw [List.map_cons] at hnd
      obtain ⟨hp2, hndtail⟩ := List.nodup_cons.mp hnd
      have hmem : ∀ q ∈ ps, q.2 ∈ ps.map Prod.snd := fun q hq =>
        List.mem_map_of_mem Prod.snd hq
      rw [List.flatMap_cons, applyMuts_append]
      set s1 := applyMuts (dropItemMuts oracle p) s with hs1
      set itp := stepFun oracle p s.nextHandle (pristineOf p) with hitp
      have hpreF : pre.map (stepFun oracle p s.nextHandle) = pre := by
        rw [show pre.map (stepFun oracle p s.nextHandle) = pre.map id from
          List.map_congr_left fun it hit =>
            stepFun_of_ne oracle p s.nextHandle it (hpre it hit p (by simp))]
        exact List.map_id pre
      have hpostF : post.map (stepFun oracle p s.nextHandle) = post := by
        rw [show post.map (stepFun oracle p s.nextHandle) = post.map id from
          List.map_congr_left fun it hit =>
            stepFun_of_ne oracle p s.nextHandle it (hpost it hit p (by simp))]
        exact List.map_id post
      have hmidF : (ps.map pristineOf).map (stepFun oracle p s.nextHandle) =
          ps.map pristineOf := by
        rw [show (ps.map pristineOf).map (stepFun oracle p s.nextHandle) =
            (ps.map pristineOf).map id from
          List.map_congr_left fun it hit => ?_]
        · exact List.map_id _
        · obtain ⟨q, hq, rfl⟩ := List.mem_map.mp hit
          refine stepFun_of_ne oracle p s.nextHandle _ ?_
          show q.2 ≠ p.2
          intro hcontra
          exact hp2 (hcontra ▸ hmem q hq)
      have himg1 : s1.compressedImages =
          (pre ++ [itp]) ++ ps.map pristineOf ++ post := by
        rw [hs1, dropItem_run_images, hs]
        simp only [List.map_append, List.map_cons, hpreF, hpostF, hmidF]
        simp [hitp]
      have hitpid : itp.id = p.2 := by
        rw [hitp, stepFun_preserves_id]
        rfl
      have hpre1 : ∀ it ∈ pre ++ [itp], ∀ q ∈ ps, it.id ≠ q.2 := by
        intro it hit q hq
        rcases List.mem_append.mp hit with hl | hr
        · exact hpre it hl q (by simp [hq])
        · have : it = itp := by simpa using hr
          rw [this, hitpid]
          intro hcontra
          exact hp2 (hcontra ▸ hmem q hq)
      have hpost1 : ∀ it ∈ post, ∀ q ∈ ps, it.id ≠ q.2 := fun it hit q hq =>
        hpost it hit q (by simp [hq])
      obtain ⟨mid, himg, hf2, hload, hlevel, hrev⟩ :=
        ih (pre ++ [itp]) post s1 himg1 hndtail hpre1 hpost1
      refine ⟨itp :: mid, ?_, ?_, ?_, ?_, ?_⟩
      · rw [himg]
        simp
      · exact List.Forall₂.cons (settledShape_stepFun_pristine oracle p
          s.nextHandle) hf2
      · rw [hload, hs1, dropItem_run_loading]
      · rw [hlevel, hs1, dropItem_run_level]
      · rw [hrev, hs1, dropItem_run_revoked]

lemma onDrop_spec (oracle : File → Level → Option Nat) (files : List File)
    (ids : List Nat) (s : AppState)
    (hlen : ids.length = (files.filter fileIsJpeg).length)
    (hnd : ids.Nodup)
    (hfresh : ∀ it ∈ s.compressedImages, it.id ∉ ids)
    (hne : files ≠ []) :
    ∃ mid,
      (onDrop oracle files ids s).compressedImages =
        mid ++ s.compressedImages ∧
      List.Forall₂ (settledShape oracle) ((files.filter fileIsJpeg).zip ids)
        mid ∧
      (onDrop oracle files ids s).loading = false ∧
      (onDrop oracle files ids s).compressionLevel = s.compressionLevel ∧
      (onDrop oracle files ids s).revoked = s.revoked := by
  have hsnd : ((files.filter fileIsJpeg).zip ids).map Prod.snd = ids :=
    List.map_snd_zip _ _ (le_of_eq hlen)
  unfold onDrop onDropMut
  rw [if_neg hne]
  simp only [applyMuts, List.append_eq]
  rw [applyMuts_append]
  set s2 := enqueueMut files ids (setLoadingMut true s) with hs2
  have h2img : s2.compressedImages =
      [] ++ ((files.filter fileIsJpeg).zip ids).map pristineOf ++
        s.compressedImages := by
    rw [hs2]
    simp [enqueueMut, setLoadingMut, newItems, pristineOf]
  have hpost2 : ∀ it ∈ s.compressedImages,
      ∀ p ∈ (files.filter fileIsJpeg).zip ids, it.id ≠ p.2 := by
    intro it hit p hp
    intro hcontra
    exact hfresh it hit (hcontra ▸ (List.of_mem_zip hp).2)
  obtain ⟨mid, himg, hf2, hload, hlevel, hrev⟩ :=
    loop_spec oracle ((files.filter fileIsJpeg).zip ids) []
      s.compressedImages s2 h2img (by rw [hsnd]; exact hnd) (by simp) hpost2
  refine ⟨mid, ?_, hf2, ?_, ?_, ?_⟩
  · simp only [applyMuts, setLoadingMut]
    rw [himg]
    simp
  · simp [applyMuts, setLoadingMut]
  · simp only [applyMuts, setLoadingMut]
    rw [hlevel, hs2]
    rfl
  · simp only [applyMuts, setLoadingMut]
    rw [hrev, hs2]
    rfl

/-! ## Helpers about settled shapes -/

lemma settledShape_doneStatus (oracle : File → Level → Option Nat)
    (p : File × Nat) (it : Item) (h : settledShape oracle p it) :
    doneStatus it = (oracle p.1 Level.medium).isSome := by
  obtain ⟨h1, h2, h3, hprog, hrest⟩ := h
  cases horacle : oracle p.1 Level.medium with
  | some c =>
      rw [horacle] at hrest
      simp [doneStatus, hrest.1, hprog]
  | none =>
      rw [horacle] at hrest
      simp [doneStatus, hrest.1]

lemma forall2_mem_right_exists {R : File × Nat → Item → Prop} :
    ∀ {pairs : List (File × Nat)} {mid : List Item},
      List.Forall₂ R pairs mid → ∀ it ∈ mid, ∃ p ∈ pairs, R p it := by
  intro pairs mid h
  induction h with
  | nil =>
      intro it hit
      exact absurd hit (List.not_mem_nil it)
  | cons hR hrest ih =>
      intro it hit
      rcases List.mem_cons.mp hit with rfl | hr
      · exact ⟨_, List.mem_cons_self _ _, hR⟩
      · obtain ⟨p, hp, hRp⟩ := ih it hr
        exact ⟨p, List.mem_cons_of_mem _ hp, hRp⟩

lemma forall2_countP_done (oracle : File → Level → Option Nat) :
    ∀ {pairs : List (File × Nat)} {mid : List Item},
      List.Forall₂ (settledShape oracle) pairs mid →
      mid.countP doneStatus = succCount oracle pairs := by
  intro pairs mid h
  induction h with
  | @cons p it ps its hR hrest ih =>
      simp only [List.countP_cons, succCount] at ih ⊢
      rw [ih, settledShape_doneStatus oracle p it hR]
  | nil => rfl

/-! ## Concrete files and oracles used by counterexamples and witnesses -/

/-- A 2000-byte JPEG file. -/
def fileA : File := ⟨"a.jpg", 2000, "image/jpeg"⟩

/-- A 3000-byte JPEG file. -/
def fileB : File := ⟨"b.jpg", 3000, "image/jpeg"⟩

/-- A 4000-byte JPEG file. -/
def fileC : File := ⟨"c.jpg", 4000, "image/jpeg"⟩

/-- A PNG file, rejected by the JPEG filter. -/
def filePngX : File := ⟨"x.png", 500, "image/png"⟩

/-- Another PNG file, rejected by the JPEG filter. -/
def filePngY : File := ⟨"y.png", 600, "image/png"⟩

/-- Compression oracle for which the library throws on `a.jpg` and succeeds
with 700 bytes on everything else. -/
def oracleFailA : File → Level → Option Nat :=
  fun f _ => if f.name = "a.jpg" then none else some 700

/-- Compression oracle that always succeeds with 700 bytes. -/
def oracleAll700 : File → Level → Option Nat :=
  fun _ _ => some 700

/-- Compression oracle for which the library always throws. -/
def oracleFailAll : File → Level → Option Nat :=
  fun _ _ => none

/-! ## C10: empty submission is a no-op -/

/-- C10: calling the drop handler with an empty accepted-file list returns
before any state change (`if (acceptedFiles.length === 0) return`): the item
collection, the per-item progress map and the loading flag — indeed the whole
state — are left unchanged. -/
theorem onDrop_empty_noop (oracle : File → Level → Option Nat)
    (ids : List Nat) (s : AppState) :
    (onDrop oracle [] ids s).compressedImages = s.compressedImages ∧
    (onDrop oracle [] ids s).uploadProgress = s.uploadProgress ∧
    (onDrop oracle [] ids s).loading = s.loading ∧
    onDrop oracle [] ids s = s :=
  ⟨rfl, rfl, rfl, rfl⟩

/-! ## C2: compression failure handling -/

/-- C2 (corrected): a `CompressionFailure` never aborts the batch — every
accepted file is settled according to its own oracle outcome, those after the
failure included — but the failing item's status is never set to `failed`:
the store's only status fields leave it with `processing = true` (at progress
100, with no artifact), i.e. it permanently renders as still processing.  The
`catch` branch of `compressImage` only logs, and `onDrop` skips the store
update when the result is `null`. -/
theorem compressionFailure_keeps_processing_and_continues
    (oracle : File → Level → Option Nat) (files : List File) (ids : List Nat)
    (s : AppState)
    (hlen : ids.length = (files.filter fileIsJpeg).length)
    (hnd : ids.Nodup)
    (hfresh : ∀ it ∈ s.compressedImages, it.id ∉ ids)
    (hne : files ≠ []) :
    ∃ mid,
      (onDrop oracle files ids s).compressedImages =
        mid ++ s.compressedImages ∧
      List.Forall₂
        (fun p it =>
          (oracle p.1 Level.medium = none →
            it.processing = true ∧ it.progress = 100 ∧ it.url = none) ∧
          (∀ c, oracle p.1 Level.medium = some c →
            doneStatus it = true ∧ it.compressedSize = some c))
        ((files.filter fileIsJpeg).zip ids) mid := by
  obtain ⟨mid, himg, hf2, hload, hlevel, hrev⟩ :=
    onDrop_spec oracle files ids s hlen hnd hfresh hne
  refine ⟨mid, himg, hf2.imp ?_⟩
  intro p it hshape
  obtain ⟨hid, hname, hfile, hprog, hrest⟩ := hshape
  constructor
  · intro hnone
    rw [hnone] at hrest
    exact ⟨hrest.1, hprog, hrest.2.1⟩
  · intro c hc
    rw [hc] at hrest
    refine ⟨?_, hrest.2.2.2⟩
    simp [doneStatus, hrest.1, hprog]

theorem compressionFailure_keeps_processing_and_continues_witness :
    ∃ mid,
      (onDrop oracleFailA [fileA, fileB] [0, 1]
        initialState).compressedImages =
        mid ++ initialState.compressedImages ∧
      List.Forall₂
        (fun p it =>
          (oracleFailA p.1 Level.medium = none →
            it.processing = true ∧ it.progress = 100 ∧ it.url = none) ∧
          (∀ c, oracleFailA p.1 Level.medium = some c →
            doneStatus it = true ∧ it.compressedSize = some c))
        (([fileA, fileB].filter fileIsJpeg).zip [0, 1]) mid :=
  compressionFailure_keeps_processing_and_continues oracleFailA
    [fileA, fileB] [0, 1] initialState (by decide) (by decide) (by decide)
    (by decide)

/-- C2 counterexample: in the batch `[a.jpg, b.jpg]` where compressing
`a.jpg` throws, the final store shows item 0 with `processing = true`,
progress 100 and no artifact — its status was never set to any `failed`
state (no such state exists in the store) — while the batch continued and
item 1 completed normally. -/
theorem compressionFailure_not_marked_failed_cx :
    (onDrop oracleFailA [fileA, fileB] [0, 1] initialState).compressedImages =
      [⟨0, "a.jpg", some fileA, true, 100, none, none, none⟩,
       ⟨1, "b.jpg", some fileB, false, 100, some 0, some 3000, some 700⟩] := by
  decide

/-! ## C3: terminal-state accounting for a batch -/

/-- C3 (corrected): after an `onDrop` batch over N accepted files completes,
exactly the items whose compression succeeded are in the terminal `done`
state; the count of done items equals the count of successful compressions
(so all N are terminal only when every compression succeeds), every new item
has left `pending` (progress 100), but an item whose compression failed stays
with `processing = true` — it never reaches a terminal state. -/
theorem batch_settles_exactly_successes
    (oracle : File → Level → Option Nat) (files : List File) (ids : List Nat)
    (s : AppState)
    (hlen : ids.length = (files.filter fileIsJpeg).length)
    (hnd : ids.Nodup)
    (hfresh : ∀ it ∈ s.compressedImages, it.id ∉ ids)
    (hne : files ≠ []) :
    ∃ mid,
      (onDrop oracle files ids s).compressedImages =
        mid ++ s.compressedImages ∧
      mid.length = (files.filter fileIsJpeg).length ∧
      mid.countP doneStatus =
        succCount oracle ((files.filter fileIsJpeg).zip ids) ∧
      (∀ it ∈ mid, it.progress = 100) ∧
      ((∀ p ∈ (files.filter fileIsJpeg).zip ids,
          (oracle p.1 Level.medium).isSome = true) →
        ∀ it ∈ mid, doneStatus it = true) := by
  obtain ⟨mid, himg, hf2, hload, hlevel, hrev⟩ :=
    onDrop_spec oracle files ids s hlen hnd hfresh hne
  refine ⟨mid, himg, ?_, forall2_countP_done oracle hf2, ?_, ?_⟩
  · rw [← hf2.length_eq, List.length_zip, hlen, min_self]
  · intro it hit
    obtain ⟨p, hp, hshape⟩ := forall2_mem_right_exists hf2 it hit
    exact hshape.2.2.2.1
  · intro hall it hit
    obtain ⟨p, hp, hshape⟩ := forall2_mem_right_exists hf2 it hit
    rw [settledShape_doneStatus oracle p it hshape]
    exact hall p hp

theorem batch_settles_exactly_successes_witness :
    ∃ mid,
      (onDrop oracleAll700 [fileB, fileC] [2, 3]
        initialState).compressedImages =
        mid ++ initialState.compressedImages ∧
      mid.length = ([fileB, fileC].filter fileIsJpeg).length ∧
      mid.countP doneStatus =
        succCount oracleAll700 (([fileB, fileC].filter fileIsJpeg).zip
          [2, 3]) ∧
      (∀ it ∈ mid, it.progress = 100) ∧
      ((∀ p ∈ ([fileB, fileC].filter fileIsJpeg).zip [2, 3],
          (oracleAll700 p.1 Level.medium).isSome = true) →
        ∀ it ∈ mid, doneStatus it = true) :=
  batch_settles_exactly_successes oracleAll700 [fileB, fileC] [2, 3]
    initialState (by decide) (by decide) (by decide) (by decide)

/-- C3 counterexample: a batch of N = 1 valid file whose compression throws
runs to completion (`loading` back to `false`), yet zero items are in a
terminal state: the single item is left with `processing = true` and progress
100 — it is neither `done` nor `failed`, and nothing will ever settle it. -/
theorem batch_not_all_terminal_cx :
    (onDrop oracleFailAll [fileC] [0] initialState).compressedImages =
      [⟨0, "c.jpg", some fileC, true, 100, none, none, none⟩] ∧
    (onDrop oracleFailAll [fileC] [0]
      initialState).compressedImages.countP doneStatus = 0 ∧
    (onDrop oracleFailAll [fileC] [0] initialState).loading = false := by
  refine ⟨by decide, by decide, by decide⟩

/-! ## C8: submission filtering and the rejection report -/

/-- C8 (corrected, part 1): exactly the files of the accepted JPEG family are
enqueued — the enqueued items' retained sources are precisely the
JPEG-filtered files — and every enqueued item starts pending: `processing =
true`, `progress = 0`, no artifact, no sizes.  The alert is raised iff at
least one file was rejected; by `rejection_report_lacks_count_cx` it is a
fixed message that does not carry the rejected count.  In particular a
submission consisting of one non-JPEG file enqueues nothing and raises the
alert with one file rejected. -/
theorem submit_filters_jpeg_enqueues_pending :
    (∀ files ids, ids.length = (files.filter fileIsJpeg).length →
      (newItems files ids).map Item.file =
        (files.filter fileIsJpeg).map some) ∧
    (∀ files ids, ∀ it ∈ newItems files ids,
      it.processing = true ∧ it.progress = 0 ∧ it.url = none ∧
        it.originalSize = none ∧ it.compressedSize = none) ∧
    (∀ files, (onDropAlert files).isSome = true ↔ 0 < rejectedCount files) ∧
    (∀ f ids, fileIsJpeg f = false →
      newItems [f] ids = [] ∧ (onDropAlert [f]).isSome = true ∧
        rejectedCount [f] = 1) := by
  refine ⟨?_, ?_, ?_, ?_⟩
  · intro files ids hlen
    rw [newItems, List.map_map]
    have : (Item.file ∘ fun p : File × Nat =>
        (⟨p.2, p.1.name, some p.1, true, 0, none, none, none⟩ : Item)) =
        (fun p : File × Nat => some p.1) := rfl
    rw [this]
    have hfst : ((files.filter fileIsJpeg).zip ids).map Prod.fst =
        files.filter fileIsJpeg :=
      List.map_fst_zip _ _ (le_of_eq hlen.symm)
    calc ((files.filter fileIsJpeg).zip ids).map (fun p => some p.1)
        = (((files.filter fileIsJpeg).zip ids).map Prod.fst).map some := by
          rw [List.map_map]; rfl
      _ = (files.filter fileIsJpeg).map some := by rw [hfst]
  · intro files ids it hit
    obtain ⟨p, hp, rfl⟩ := List.mem_map.mp hit
    exact ⟨rfl, rfl, rfl, rfl, rfl⟩
  · intro files
    have hle : (files.filter fileIsJpeg).length ≤ files.length :=
      List.length_filter_le _ _
    rcases heq : files with _ | ⟨f, fs⟩
    · simp [onDropAlert, rejectedCount]
    · rw [← heq]
      have hne : files ≠ [] := by rw [heq]; exact List.cons_ne_nil f fs
      rw [onDropAlert, if_neg hne, rejectedCount]
      by_cases hflt : (files.filter fileIsJpeg).length ≠ files.length
      · rw [if_pos hflt]
        simp only [Option.isSome_some]
        constructor
        · intro _
          omega
        · intro _
          trivial
      · rw [if_neg hflt]
        simp only [Option.isSome_none]
        constructor
        · intro hcontra
          exact absurd hcontra (by simp)
        · intro hpos
          omega
  · intro f ids hf
    refine ⟨?_, ?_, ?_⟩
    · rw [newItems]
      have : [f].filter fileIsJpeg = [] := by
        simp [List.filter, hf]
      rw [this]
      rfl
    · have hfilter : [f].filter fileIsJpeg = [] := by
        simp [List.filter, hf]
      rw [onDropAlert, if_neg (List.cons_ne_nil f []),
        if_pos (by rw [hfilter]; simp)]
      rfl
    · have : [f].filter fileIsJpeg = [] := by
        simp [List.filter, hf]
      rw [rejectedCount, this]
      rfl

theorem submit_filters_jpeg_enqueues_pending_witness :
    ((newItems [fileA, filePngX] [7]).map Item.file =
      (([fileA, filePngX].filter fileIsJpeg)).map some) ∧
    ((onDropAlert [fileA, filePngX]).isSome = true ↔
      0 < rejectedCount [fileA, filePngX]) ∧
    (newItems [filePngX] [9] = [] ∧
      (onDropAlert [filePngX]).isSome = true ∧
      rejectedCount [filePngX] = 1) :=
  ⟨submit_filters_jpeg_enqueues_pending.1 [fileA, filePngX] [7] (by decide),
   submit_filters_jpeg_enqueues_pending.2.2.1 [fileA, filePngX],
   submit_filters_jpeg_enqueues_pending.2.2.2 filePngX [9] (by decide)⟩

/-- C8 counterexample: submissions rejecting one file and rejecting two files
produce the identical fixed alert — the report does not carry the rejected
count, so no rejection "with count = 1" is ever reported to the caller; only
the existence of rejected files is.  Meanwhile zero items are enqueued for a
single non-JPEG file, also through the full `onDrop` entry point. -/
theorem rejection_report_lacks_count_cx :
    onDropAlert [filePngX] = onDropAlert [filePngX, filePngY] ∧
    rejectedCount [filePngX] = 1 ∧
    rejectedCount [filePngX, filePngY] = 2 ∧
    newItems [filePngX] [0] = [] ∧
    (onDrop oracleAll700 [filePngX] [0] initialState).compressedImages =
      [] := by
  refine ⟨by decide, by decide, by decide, by decide, by decide⟩

lemma map_noop (l : List Item) (f : Item → Item)
    (h : ∀ it ∈ l, f it = it) : l.map f = l := by
  induction l with
  | nil => rfl
  | cons a l ih =>
      rw [List.map_cons, h a (by simp),
        ih (fun it hit => h it (by simp [hit]))]

/-! ## C5: removal, release, and write-after-remove -/

/-- C5 (corrected): `removeImage` removes the item immediately regardless of
its phase (the store afterwards is exactly the old store without that id)
and revokes the removed item's object URL — appending exactly one release —
when it has one.  A completion or progress write arriving for the removed id
afterwards is a no-op against the store: the `prev.map` update matches no
item, so the result is never stored and the item is never resurrected.  What
fails in the claim is only the release of the arriving result: its freshly
allocated handle is neither stored nor revoked (see
`removed_inflight_result_leaked_cx`). -/
theorem remove_immediate_release_no_resurrect :
    (∀ s id, (removeImage id s).compressedImages =
      s.compressedImages.filter (fun img => img.id != id)) ∧
    (∀ s id, ∀ it ∈ (removeImage id s).compressedImages, it.id ≠ id) ∧
    (∀ s id it u,
      s.compressedImages.find? (fun img => img.id == id) = some it →
      it.url = some u →
      (removeImage id s).revoked = s.revoked ++ [u]) ∧
    (∀ s id f c, (∀ it ∈ s.compressedImages, it.id ≠ id) →
      (completeMut id f c s).compressedImages = s.compressedImages ∧
      (mark100Mut id s).compressedImages = s.compressedImages) := by
  refine ⟨fun s id => rfl, ?_, ?_, ?_⟩
  · intro s id it hit
    have := (List.mem_filter.mp hit).2
    simpa using this
  · intro s id it u hfind hurl
    simp [removeImage, hfind, hurl]
  · intro s id f c hno
    constructor
    · exact map_noop s.compressedImages _
        (fun it hit => if_neg (hno it hit))
    · exact map_noop s.compressedImages _
        (fun it hit => if_neg (hno it hit))

/-- A state holding one completed item (id 5, artifact handle 9). -/
def stateWithDoneItem : AppState :=
  ⟨[⟨5, "a.jpg", some fileA, false, 100, some 9, some 2000, some 700⟩],
   false, [], Level.medium, 10, []⟩

theorem remove_immediate_release_no_resurrect_witness :
    (∀ it ∈ (removeImage 5 stateWithDoneItem).compressedImages, it.id ≠ 5) ∧
    (removeImage 5 stateWithDoneItem).revoked =
      stateWithDoneItem.revoked ++ [9] ∧
    (completeMut 5 fileA 700
        (removeImage 5 stateWithDoneItem)).compressedImages =
      (removeImage 5 stateWithDoneItem).compressedImages :=
  ⟨remove_immediate_release_no_resurrect.2.1 stateWithDoneItem 5,
   remove_immediate_release_no_resurrect.2.2.1 stateWithDoneItem 5
     ⟨5, "a.jpg", some fileA, false, 100, some 9, some 2000, some 700⟩ 9
     (by decide) (by decide),
   (remove_immediate_release_no_resurrect.2.2.2
     (removeImage 5 stateWithDoneItem) 5 fileA 700 (by decide)).1⟩

/-- Store history of the write-after-remove scenario: one JPEG file is
dropped; `onDrop` sets loading, enqueues the pending item, runs the simulated
progress and the progress-100 update; while it is suspended in `await
compressImage(file)` the user clicks remove; then the library resolves
successfully, `compressImage` allocates the object URL for the result, and
the completion update runs against the store.  Mutations appear exactly in
the order the program executes them, with `removeImage` interleaved at the
compression suspension point. -/
def removedMidFlight : AppState :=
  completeMut 0 fileA 700
    (removeImage 0
      (mark100Mut 0
        (applyMuts (simulateProgressValues.map (setUPMut 0))
          (enqueueMut [fileA] [0] (setLoadingMut true initialState)))))

/-- C5 counterexample: after the write-after-remove interleaving the store is
empty — the late result was not stored and the item was not resurrected —
but the late result's artifact handle (handle 0, allocated by the completion)
is leaked: the allocator advanced to 1 while `revoked` stays empty, so the
arriving result was dropped, not released, contradicting "the arriving
result is released rather than stored". -/
theorem removed_inflight_result_leaked_cx :
    removedMidFlight.compressedImages = [] ∧
    removedMidFlight.nextHandle = 1 ∧
    removedMidFlight.revoked = [] := by
  refine ⟨by decide, by decide, by decide⟩

/-! ## C4: profile change and recompression -/

/-- A state with one item previously completed under the active `medium`
profile, holding artifact handle 5 and compressed size 900. -/
def doneAtMedium : AppState :=
  ⟨[⟨1, "a.jpg", some fileA, false, 100, some 5, some 2000, some 900⟩],
   false, [], Level.medium, 6, []⟩

/-- Oracle that distinguishes the profiles: compressing `fileA` yields 1500
bytes under `high`, 900 under `medium` and 400 under `low`. -/
def oracleByLevel : File → Level → Option Nat :=
  fun _ l =>
    match l with
    | Level.high => some 1500
    | Level.medium => some 900
    | Level.low => some 400

/-- C4 (code bug): `handleCompressionChange('low')` on a store holding one
done item does re-run the item, release its old artifact handle exactly once
before storing the replacement, and return it to `done` — but the
re-compression runs against the OLD `medium` profile rather than the new
one: `compressImage` is the closure of the invoking render, which captured
`compressionLevel = 'medium'`, and `setCompressionLevel('low')` cannot
rebind it.  The stored `compressedSize` is 900 (the medium result) although
the state's active level — and the tier label the view now renders next to
the item — is `low`, under which the oracle yields 400.  This contradicts
the code's own comment `// Recompress all existing images with new
quality`. -/
theorem changeProfile_uses_stale_level_bug :
    (handleCompressionChange oracleByLevel Level.low
      doneAtMedium).compressionLevel = Level.low ∧
    (handleCompressionChange oracleByLevel Level.low
      doneAtMedium).compressedImages =
      [⟨1, "a.jpg", some fileA, false, 100, some 6, some 2000, some 900⟩] ∧
    (handleCompressionChange oracleByLevel Level.low doneAtMedium).revoked =
      [5] ∧
    oracleByLevel fileA Level.low = some 400 ∧
    (900 : Nat) ≠ 400 := by
  refine ⟨by decide, by decide, by decide, by decide, by decide⟩

/-! ## Reachable observable states and the done-state invariant -/

/-- Per-item consistency invariant: an item has left `processing` exactly
when it carries both progress 100 and an artifact handle. -/
def ItemInv (it : Item) : Prop :=
  it.processing = false ↔ (it.progress = 100 ∧ it.url.isSome = true)

/-- Store-wide invariant: every item satisfies `ItemInv`. -/
def StateInv (s : AppState) : Prop :=
  ∀ it ∈ s.compressedImages, ItemInv it

/-- Freshness of a submission's uuids with respect to a state: no existing
item carries one of them. -/
def FreshIds (ids : List Nat) (s : AppState) : Prop :=
  ∀ it ∈ s.compressedImages, it.id ∉ ids

/-- Strengthening used while an `onDrop` batch runs: every item carrying one
of the batch's uuids either has no artifact yet or has already completed. -/
def UrlGuard (ids : List Nat) (s : AppState) : Prop :=
  ∀ it ∈ s.compressedImages, it.id ∈ ids →
    (it.url = none ∨ it.processing = false)

/-- Inductive invariant for the mutations of one `onDrop` call. -/
def DropInv (ids : List Nat) (s : AppState) : Prop :=
  StateInv s ∧ UrlGuard ids s

lemma statesOf_inv (P : AppState → Prop) :
    ∀ (ms : List Mut) (s : AppState),
      (∀ m ∈ ms, ∀ t, P t → P (m t)) → P s →
      ∀ s' ∈ statesOf ms s, P s' := by
  intro ms
  induction ms with
  | nil =>
      intro s _ hP s' hs'
      have : s' = s := by simpa [statesOf] using hs'
      rwa [this]
  | cons m ms ih =>
      intro s hms hP s' hs'
      have hsplit : s' = s ∨ s' ∈ statesOf ms (m s) := by
        simpa [statesOf] using hs'
      rcases hsplit with rfl | hmem
      · exact hP
      · exact ih (m s) (fun m' hm' => hms m' (List.mem_cons_of_mem _ hm'))
          (hms m (List.mem_cons_self _ _) s hP) s' hmem

lemma applyMuts_mem_statesOf : ∀ (ms : List Mut) (s : AppState),
    applyMuts ms s ∈ statesOf ms s := by
  intro ms
  induction ms with
  | nil => intro s; simp [applyMuts, statesOf]
  | cons m ms ih =>
      intro s
      simp only [applyMuts, statesOf]
      exact List.mem_cons_of_mem _ (ih (m s))

lemma dropInv_setLoading (ids : List Nat) (b : Bool) (t : AppState) :
    DropInv ids t → DropInv ids (setLoadingMut b t) :=
  fun ht => ht

lemma dropInv_setUP (ids : List Nat) (id v : Nat) (t : AppState) :
    DropInv ids t → DropInv ids (setUPMut id v t) :=
  fun ht => ht

lemma dropInv_enqueue (ids : List Nat) (files : List File) (t : AppState) :
    DropInv ids t → DropInv ids (enqueueMut files ids t) := by
  intro ht
  obtain ⟨hS, hG⟩ := ht
  constructor
  · intro it hit
    rcases List.mem_append.mp hit with hnew | hold
    · obtain ⟨p, hp, rfl⟩ := List.mem_map.mp hnew
      unfold ItemInv
      simp
    · exact hS it hold
  · intro it hit hid
    rcases List.mem_append.mp hit with hnew | hold
    · obtain ⟨p, hp, rfl⟩ := List.mem_map.mp hnew
      exact Or.inl rfl
    · exact hG it hold hid

lemma dropInv_mark100 (ids : List Nat) (id : Nat) (hid : id ∈ ids)
    (t : AppState) : DropInv ids t → DropInv ids (mark100Mut id t) := by
  intro ht
  obtain ⟨hS, hG⟩ := ht
  constructor
  · intro it hit
    obtain ⟨it0, hit0, rfl⟩ := List.mem_map.mp hit
    by_cases h : it0.id = id
    · simp only [if_pos h]
      have hItem := hS it0 hit0
      unfold ItemInv at hItem ⊢
      rcases hG it0 hit0 (by rw [h]; exact hid) with hurl | hproc
      · constructor
        · intro hproc0
          have hc := hItem.mp hproc0
          rw [hurl] at hc
          simp at hc
        · intro hru
          have hu := hru.2
          rw [show ({ it0 with progress := 100 } : Item).url = it0.url from
            rfl, hurl] at hu
          simp at hu
      · have hpre := hItem.mp hproc
        constructor
        · intro _
          exact ⟨rfl, hpre.2⟩
        · intro _
          exact hproc
    · simp only [if_neg h]
      exact hS it0 hit0
  · intro it hit hid'
    obtain ⟨it0, hit0, rfl⟩ := List.mem_map.mp hit
    by_cases h : it0.id = id
    · simp only [if_pos h]
      rcases hG it0 hit0 (by rw [h]; exact hid) with hurl | hproc
      · exact Or.inl hurl
      · exact Or.inr hproc
    · simp only [if_neg h] at hid' ⊢
      exact hG it0 hit0 hid'

lemma dropInv_complete (ids : List Nat) (id : Nat) (f : File) (c : Nat)
    (t : AppState) : DropInv ids t → DropInv ids (completeMut id f c t) := by
  intro ht
  obtain ⟨hS, hG⟩ := ht
  constructor
  · intro it hit
    obtain ⟨it0, hit0, rfl⟩ := List.mem_map.mp hit
    by_cases h : it0.id = id
    · simp only [if_pos h]
      unfold ItemInv
      constructor
      · intro _
        exact ⟨rfl, rfl⟩
      · intro _
        rfl
    · simp only [if_neg h]
      exact hS it0 hit0
  · intro it hit hid'
    obtain ⟨it0, hit0, rfl⟩ := List.mem_map.mp hit
    by_cases h : it0.id = id
    · simp only [if_pos h]
      exact Or.inr (by trivial)
    · simp only [if_neg h] at hid' ⊢
      exact hG it0 hit0 hid'

lemma dropMut_pres (oracle : File → Level → Option Nat) (files : List File)
    (ids : List Nat) :
    ∀ m ∈ onDropMut oracle files ids, ∀ t, DropInv ids t →
      DropInv ids (m t) := by
  intro m hm t ht
  rw [onDropMut] at hm
  by_cases hne : files = []
  · rw [if_pos hne] at hm
    exact absurd hm (List.not_mem_nil m)
  · rw [if_neg hne] at hm
    rcases List.mem_cons.mp hm with rfl | hm
    · exact dropInv_setLoading ids true t ht
    rcases List.mem_cons.mp hm with rfl | hm
    · exact dropInv_enqueue ids files t ht
    rcases List.mem_append.mp hm with hm | hm
    · obtain ⟨p, hp, hmp⟩ := List.mem_flatMap.mp hm
      have hpid : p.2 ∈ ids := (List.of_mem_zip hp).2
      rw [dropItemMuts] at hmp
      rcases List.mem_append.mp hmp with hmp | hmp
      · rcases List.mem_append.mp hmp with hmp | hmp
        · obtain ⟨v, hv, rfl⟩ := List.mem_map.mp hmp
          exact dropInv_setUP ids p.2 v t ht
        · have hmeq : m = mark100Mut p.2 := by simpa using hmp
          rw [hmeq]
          exact dropInv_mark100 ids p.2 hpid t ht
      · cases horacle : oracle p.1 Level.medium with
        | some c =>
            rw [horacle] at hmp
            have hmeq : m = completeMut p.2 p.1 c := by simpa using hmp
            rw [hmeq]
            exact dropInv_complete ids p.2 p.1 c t ht
        | none =>
            rw [horacle] at hmp
            exact absurd hmp (List.not_mem_nil m)
    · have hmeq : m = setLoadingMut false := by simpa using hm
      rw [hmeq]
      exact dropInv_setLoading ids false t ht

lemma stateInv_setLevel (l : Level) (t : AppState) :
    StateInv t → StateInv (setLevelMut l t) :=
  fun ht => ht

lemma stateInv_setLoading (b : Bool) (t : AppState) :
    StateInv t → StateInv (setLoadingMut b t) :=
  fun ht => ht

lemma stateInv_setUP (id v : Nat) (t : AppState) :
    StateInv t → StateInv (setUPMut id v t) :=
  fun ht => ht

lemma stateInv_revoke (u : Nat) (t : AppState) :
    StateInv t → StateInv (revokeMut u t) :=
  fun ht => ht

lemma stateInv_reset (id : Nat) (t : AppState) :
    StateInv t → StateInv (resetMut id t) := by
  intro hS it hit
  obtain ⟨it0, hit0, rfl⟩ := List.mem_map.mp hit
  by_cases h : it0.id = id
  · simp only [if_pos h]
    unfold ItemInv
    simp
  · simp only [if_neg h]
    exact hS it0 hit0

lemma stateInv_complete (id : Nat) (f : File) (c : Nat) (t : AppState) :
    StateInv t → StateInv (completeMut id f c t) := by
  intro hS it hit
  obtain ⟨it0, hit0, rfl⟩ := List.mem_map.mp hit
  by_cases h : it0.id = id
  · simp only [if_pos h]
    unfold ItemInv
    constructor
    · intro _
      exact ⟨rfl, rfl⟩
    · intro _
      rfl
  · simp only [if_neg h]
    exact hS it0 hit0

lemma stateInv_removeImage (id : Nat) (s : AppState) :
    StateInv s → StateInv (removeImage id s) := by
  intro hS it hit
  exact hS it (List.mem_of_mem_filter hit)

lemma changeMut_pres (oracle : File → Level → Option Nat) (newLevel : Level)
    (s0 : AppState) :
    ∀ m ∈ changeMut oracle newLevel s0, ∀ t, StateInv t →
      StateInv (m t) := by
  intro m hm t ht
  rw [changeMut] at hm
  rcases List.mem_cons.mp hm with rfl | hm
  · exact stateInv_setLevel newLevel t ht
  rcases List.mem_cons.mp hm with rfl | hm
  · exact stateInv_setLoading true t ht
  rcases List.mem_append.mp hm with hm | hm
  · obtain ⟨it0, hit0, hmits⟩ := List.mem_flatMap.mp hm
    rw [changeItemMuts] at hmits
    cases hfile : it0.file with
    | none =>
        rw [hfile] at hmits
        exact absurd hmits (List.not_mem_nil m)
    | some f =>
        rw [hfile] at hmits
        rcases List.mem_cons.mp hmits with rfl | hmits
        · exact stateInv_setUP it0.id 0 t ht
        rcases List.mem_cons.mp hmits with rfl | hmits
        · exact stateInv_reset it0.id t ht
        rcases List.mem_append.mp hmits with hmits | hmits
        · obtain ⟨v, hv, rfl⟩ := List.mem_map.mp hmits
          exact stateInv_setUP it0.id v t ht
        · cases horacle : oracle f s0.compressionLevel with
          | some c =>
              rw [horacle] at hmits
              rcases List.mem_append.mp hmits with hmits | hmits
              · cases hurl : it0.url with
                | none =>
                    rw [hurl] at hmits
                    exact absurd hmits (List.not_mem_nil m)
                | some u =>
                    rw [hurl] at hmits
                    have hmeq : m = revokeMut u := by simpa using hmits
                    rw [hmeq]
                    exact stateInv_revoke u t ht
              · have hmeq : m = completeMut it0.id f c := by
                  simpa using hmits
                rw [hmeq]
                exact stateInv_complete it0.id f c t ht
          | none =>
              rw [horacle] at hmits
              exact absurd hmits (List.not_mem_nil m)
  · have hmeq : m = setLoadingMut false := by simpa using hm
    rw [hmeq]
    exact stateInv_setLoading false t ht

/-- Observable states of the application: the initial state; every state
observable while an `onDrop` call with fresh uuids runs from an observable
state; every state observable while a `handleCompressionChange` call runs
from an observable state; and the result of removing an item from an
observable state (removal is a synchronous click handler, so it may be
issued at any suspension point, i.e. from any observable state).  Operations
are serialized as in the source's single-threaded execution model. -/
inductive Reach : AppState → Prop
  | init : Reach initialState
  | drop (s s' : AppState) (oracle : File → Level → Option Nat)
      (files : List File) (ids : List Nat) :
      Reach s → FreshIds ids s → s' ∈ onDropStates oracle files ids s →
      Reach s'
  | change (s s' : AppState) (oracle : File → Level → Option Nat)
      (newLevel : Level) :
      Reach s → s' ∈ changeStates oracle newLevel s → Reach s'
  | rm (s : AppState) (id : Nat) : Reach s → Reach (removeImage id s)

lemma reach_stateInv : ∀ s, Reach s → StateInv s := by
  intro s h
  induction h with
  | init =>
      intro it hit
      exact absurd hit (List.not_mem_nil it)
  | drop s s' oracle files ids hr hfresh hmem ih =>
      have hstart : DropInv ids s := by
        refine ⟨ih, ?_⟩
        intro it hit hid
        exact absurd hid (hfresh it hit)
      exact (statesOf_inv (DropInv ids) (onDropMut oracle files ids) s
        (dropMut_pres oracle files ids) hstart s' hmem).1
  | change s s' oracle newLevel hr hmem ih =>
      exact statesOf_inv StateInv (changeMut oracle newLevel s) s
        (changeMut_pres oracle newLevel s) ih s' hmem
  | rm s id hr ih =>
      exact stateInv_removeImage id s ih

lemma doneStatus_eq_true_iff (it : Item) :
    doneStatus it = true ↔ (it.processing = false ∧ it.progress = 100) := by
  simp [doneStatus]

/-- C9: in every observable state of the store — initial, during and after
any submission, progress tick, completion, failure, removal or profile
change — an item renders as done (the view's condition
`!image.processing && image.progress === 100`) if and only if it carries
both progress 100 and an artifact handle. -/
theorem done_iff_progress100_and_artifact (s : AppState) (hs : Reach s) :
    ∀ it ∈ s.compressedImages,
      doneStatus it = true ↔ (it.progress = 100 ∧ it.url.isSome = true) := by
  intro it hit
  have h := reach_stateInv s hs it hit
  unfold ItemInv at h
  rw [doneStatus_eq_true_iff]
  constructor
  · intro hpp
    exact h.mp hpp.1
  · intro hru
    exact ⟨h.mpr hru, hru.1⟩

/-- Completed item reached by the C9 witness run. -/
def witnessItemC9 : Item :=
  ⟨20, "a.jpg", some fileA, false, 100, some 0, some 2000, some 700⟩

theorem done_iff_progress100_and_artifact_witness :
    doneStatus witnessItemC9 = true ↔
      (witnessItemC9.progress = 100 ∧ witnessItemC9.url.isSome = true) :=
  done_iff_progress100_and_artifact
    (onDrop oracleAll700 [fileA] [20] initialState)
    (Reach.drop initialState _ oracleAll700 [fileA] [20] Reach.init
      (fun it hit => absurd hit (List.not_mem_nil it))
      (applyMuts_mem_statesOf _ _))
    witnessItemC9 (by decide)

/-! ## C7: progress monotonicity -/

/-- Progress value an `onDrop` loop event writes for item `id`, if any: a
simulated tick writes its value to the progress map, the `progress: 100`
update and a successful completion write 100 to the item; compression calls,
pacing delays and a failed settling write nothing. -/
def progressWriteOf (id : Nat) : BEv → Option Nat
  | BEv.tick i v => if i = id then some v else none
  | BEv.mark i => if i = id then some 100 else none
  | BEv.settle i ok => if i = id ∧ ok = true then some 100 else none
  | _ => none

/-- Sequence of progress values written for item `id` along a trace. -/
def progressWritesOf (id : Nat) (tr : List BEv) : List Nat :=
  tr.filterMap (progressWriteOf id)

lemma progressWrite_tick_comp (id : Nat) :
    (progressWriteOf id ∘ fun v => BEv.tick id v) = some := by
  funext v
  simp [progressWriteOf, Function.comp]

lemma progressWrites_own_block_true (oracle : File → Level → Option Nat)
    (p : File × Nat) (hok : (oracle p.1 Level.medium).isSome = true) :
    progressWritesOf p.2 (onDropItemTrace oracle p) =
      simulateProgressValues ++ [100, 100] := by
  simp only [progressWritesOf, onDropItemTrace, List.filterMap_append,
    List.filterMap_map, progressWrite_tick_comp, List.filterMap_some]
  simp [progressWriteOf, hok]

lemma progressWrites_own_block_false (oracle : File → Level → Option Nat)
    (p : File × Nat) (hok : (oracle p.1 Level.medium).isSome = false) :
    progressWritesOf p.2 (onDropItemTrace oracle p) =
      simulateProgressValues ++ [100] := by
  simp only [progressWritesOf, onDropItemTrace, List.filterMap_append,
    List.filterMap_map, progressWrite_tick_comp, List.filterMap_some]
  simp [progressWriteOf, hok]

lemma chain_le_progressWrites_block (oracle : File → Level → Option Nat)
    (p : File × Nat) :
    List.Chain' (fun a b => a ≤ b)
      (progressWritesOf p.2 (onDropItemTrace oracle p)) := by
  cases hok : (oracle p.1 Level.medium).isSome with
  | true =>
      rw [progressWrites_own_block_true oracle p hok,
        simulateProgressValues_eq]
      simp [List.chain'_cons]
  | false =>
      rw [progressWrites_own_block_false oracle p hok,
        simulateProgressValues_eq]
      simp [List.chain'_cons]

lemma progressWrites_block_ne (oracle : File → Level → Option Nat)
    (p : File × Nat) (id : Nat) (h : p.2 ≠ id) :
    progressWritesOf id (onDropItemTrace oracle p) = [] := by
  simp [progressWritesOf, onDropItemTrace, List.filterMap_append,
    List.filterMap_map, progressWriteOf, Function.comp, h]

lemma progressWrites_not_mem (oracle : File → Level → Option Nat) :
    ∀ (pairs : List (File × Nat)) (id : Nat), id ∉ pairs.map Prod.snd →
      progressWritesOf id (onDropTrace oracle pairs) = [] := by
  intro pairs
  induction pairs with
  | nil => intro id _; rfl
  | cons p rest ih =>
      intro id h
      rw [List.map_cons] at h
      have h1 : p.2 ≠ id := by
        intro hc
        exact h (by rw [hc]; exact List.mem_cons_self _ _)
      have h2 : id ∉ rest.map Prod.snd := by
        intro hc
        exact h (List.mem_cons_of_mem _ hc)
      cases rest with
      | nil => exact progressWrites_block_ne oracle p id h1
      | cons q rs =>
          have hq : id ∉ (q :: rs).map Prod.snd := h2
          show progressWritesOf id
            (onDropItemTrace oracle p ++ BEv.pace 300 ::
              onDropTrace oracle (q :: rs)) = []
          rw [progressWritesOf, List.filterMap_append, List.filterMap_cons]
          have hpace : progressWriteOf id (BEv.pace 300) = none := rfl
          rw [hpace]
          rw [show (onDropItemTrace oracle p).filterMap (progressWriteOf id)
            = [] from progressWrites_block_ne oracle p id h1]
          rw [show (onDropTrace oracle (q :: rs)).filterMap
            (progressWriteOf id) = [] from ih id hq]
          rfl

lemma chain_progressWrites (oracle : File → Level → Option Nat) :
    ∀ (pairs : List (File × Nat)) (id : Nat),
      (pairs.map Prod.snd).Nodup →
      List.Chain' (fun a b => a ≤ b)
        (progressWritesOf id (onDropTrace oracle pairs)) := by
  intro pairs
  induction pairs with
  | nil =>
      intro id _
      exact List.chain'_nil
  | cons p rest ih =>
      intro id hnd
      rw [List.map_cons] at hnd
      obtain ⟨hp2, hndtail⟩ := List.nodup_cons.mp hnd
      cases rest with
      | nil =>
          by_cases h : p.2 = id
          · rw [← h]
            exact chain_le_progressWrites_block oracle p
          · show List.Chain' (fun a b => a ≤ b)
              (progressWritesOf id (onDropItemTrace oracle p))
            rw [progressWrites_block_ne oracle p id h]
            exact List.chain'_nil
      | cons q rs =>
          have hsplit : progressWritesOf id
              (onDropTrace oracle (p :: q :: rs)) =
              progressWritesOf id (onDropItemTrace oracle p) ++
                progressWritesOf id (onDropTrace oracle (q :: rs)) := by
            show progressWritesOf id
              (onDropItemTrace oracle p ++ BEv.pace 300 ::
                onDropTrace oracle (q :: rs)) = _
            rw [progressWritesOf, List.filterMap_append,
              List.filterMap_cons]
            rfl
          rw [hsplit]
          by_cases h : p.2 = id
          · have hrest0 : progressWritesOf id
                (onDropTrace oracle (q :: rs)) = [] :=
              progressWrites_not_mem oracle (q :: rs) id
                (by rw [← h]; exact hp2)
            rw [hrest0, List.append_nil, ← h]
            exact chain_le_progressWrites_block oracle p
          · rw [progressWrites_block_ne oracle p id h, List.nil_append]
            exact ih id hndtail

/-- C7 (corrected): within one processing run an item's progress is
non-decreasing — the progress writes a batch performs for any item id form a
chain under ≤ — and an item that has left `processing` always carries
progress exactly 100 together with its artifact, in every observable state.
Across the whole lifetime, however, monotonicity fails and progress 100 does
not imply done: a profile change resets a done item's progress from 100 back
to 0 (see the counterexample), and a failed compression leaves an item at
progress 100 that never becomes done. -/
theorem progress_monotone_within_run :
    (∀ (oracle : File → Level → Option Nat) (pairs : List (File × Nat))
      (id : Nat), (pairs.map Prod.snd).Nodup →
      List.Chain' (fun a b => a ≤ b)
        (progressWritesOf id (onDropTrace oracle pairs))) ∧
    (∀ s, Reach s → ∀ it ∈ s.compressedImages, it.processing = false →
      it.progress = 100 ∧ it.url.isSome = true) := by
  constructor
  · exact fun oracle pairs id h => chain_progressWrites oracle pairs id h
  · intro s hs it hit hproc
    have h := reach_stateInv s hs it hit
    unfold ItemInv at h
    exact h.mp hproc

/-- Completed item reached by the C7 witness run. -/
def witnessItemC7 : Item :=
  ⟨30, "b.jpg", some fileB, false, 100, some 0, some 3000, some 700⟩

theorem progress_monotone_within_run_witness :
    List.Chain' (fun a b => a ≤ b)
      (progressWritesOf 3 (onDropTrace oracleAll700 [(fileA, 3)])) ∧
    (witnessItemC7.processing = false →
      witnessItemC7.progress = 100 ∧ witnessItemC7.url.isSome = true) :=
  ⟨progress_monotone_within_run.1 oracleAll700 [(fileA, 3)] 3 (by decide),
   fun hproc => progress_monotone_within_run.2
     (onDrop oracleAll700 [fileB] [30] initialState)
     (Reach.drop initialState _ oracleAll700 [fileB] [30] Reach.init
       (fun it hit => absurd hit (List.not_mem_nil it))
       (applyMuts_mem_statesOf _ _))
     witnessItemC7 (by decide) hproc⟩

/-- Progress field of the item with the given id, as an observer reads it. -/
def progressOfItem (id : Nat) (s : AppState) : Option Nat :=
  (s.compressedImages.find? (fun img => img.id == id)).map Item.progress

/-- C7 counterexample: across an item's lifetime progress is NOT
non-decreasing.  Starting from a store holding a done item at progress 100,
a profile change re-runs the item: in the observable state right after its
reset mutation (the fifth state of the run's trace) the same item has
progress 0 — an observable decrease from 100 to 0. -/
theorem progress_resets_on_profile_change_cx :
    progressOfItem 1 ((changeStates oracleByLevel Level.low
      doneAtMedium).getD 0 initialState) = some 100 ∧
    progressOfItem 1 ((changeStates oracleByLevel Level.low
      doneAtMedium).getD 4 initialState) = some 0 := by
  refine ⟨by decide, by decide⟩
